import Mathlib

/-!
Verification of the gtex_analyzer ingestion-and-classification core.

The Rust sources are embedded shallowly:

* `f32` values (`TPMValue`, `ZScoreValue`) are modelled by the inductive
  type `F`: an exact rational (`F.val`), the two infinities and `F.nan`.
  IEEE-754 rounding and signed zero are not modelled; the special-value
  propagation rules (NaN is absorbing, NaN compares false with everything,
  `0 / 0 = NaN`, division of a nonzero number by zero gives an infinity,
  `sqrt` of a negative number is NaN) are modelled exactly, because the
  classification behaviour the specification talks about depends on them.
  `Rat.sqrt` (exact on perfect squares, rounding otherwise) stands in for
  the rounding hardware square root.
* The line source handed to the core is a `List String` (the specification
  treats decompression / buffered reading as an external collaborator that
  delivers decoded text lines); I/O failures of that collaborator are
  outside the model.
* `HashMap<String, DGEResult>` is modelled as an insertion-ordered
  association list together with the key-membership test the code performs
  before every insert.
* Fallible functions return `Except LoadError`; the error variants carry
  the structured data of the `io::Error` messages built by the code.
  `LoadError.indexOutOfBounds` models the Rust panic caused by indexing
  `elems[0]` / `elems[1]` on a line with fewer than two tokens — the code
  aborts there without constructing an `io::Error`.
-/

/-- Numeric model of Rust `f32`: NaN, the two infinities, or an exact
rational magnitude. -/
inductive F where
  | nan : F
  | pinf : F
  | ninf : F
  | val : ℚ → F
deriving DecidableEq

/-- IEEE-style negation. -/
def F.neg : F → F
  | nan => nan
  | pinf => ninf
  | ninf => pinf
  | val a => val (-a)

/-- IEEE-style absolute value (Rust `f32::abs`). -/
def F.abs : F → F
  | nan => nan
  | pinf => pinf
  | ninf => pinf
  | val a => val |a|

/-- IEEE-style addition: NaN absorbs, `(+∞) + (−∞) = NaN`. -/
def F.add : F → F → F
  | nan, _ => nan
  | _, nan => nan
  | pinf, ninf => nan
  | ninf, pinf => nan
  | pinf, _ => pinf
  | _, pinf => pinf
  | ninf, _ => ninf
  | _, ninf => ninf
  | val a, val b => val (a + b)

/-- IEEE-style subtraction: NaN absorbs, `(±∞) − (±∞) = NaN`. -/
def F.sub : F → F → F
  | nan, _ => nan
  | _, nan => nan
  | pinf, pinf => nan
  | ninf, ninf => nan
  | pinf, _ => pinf
  | _, ninf => pinf
  | ninf, _ => ninf
  | _, pinf => ninf
  | val a, val b => val (a - b)

/-- IEEE-style multiplication: NaN absorbs, `(±∞) * 0 = NaN`. -/
def F.mul : F → F → F
  | nan, _ => nan
  | _, nan => nan
  | pinf, pinf => pinf
  | pinf, ninf => ninf
  | ninf, pinf => ninf
  | ninf, ninf => pinf
  | pinf, val b => if b = 0 then nan else if 0 < b then pinf else ninf
  | val a, pinf => if a = 0 then nan else if 0 < a then pinf else ninf
  | ninf, val b => if b = 0 then nan else if 0 < b then ninf else pinf
  | val a, ninf => if a = 0 then nan else if 0 < a then ninf else pinf
  | val a, val b => val (a * b)

/-- IEEE-style division: NaN absorbs, `∞ / ∞ = NaN`, `0 / 0 = NaN`,
nonzero / 0 is a signed infinity, finite / ∞ is zero (signed zero is not
modelled). -/
def F.div : F → F → F
  | nan, _ => nan
  | _, nan => nan
  | pinf, pinf => nan
  | pinf, ninf => nan
  | ninf, pinf => nan
  | ninf, ninf => nan
  | pinf, val b => if 0 ≤ b then pinf else ninf
  | ninf, val b => if 0 ≤ b then ninf else pinf
  | val _, pinf => val 0
  | val _, ninf => val 0
  | val a, val b =>
    if b = 0 then (if a = 0 then nan else if 0 < a then pinf else ninf)
    else val (a / b)

/-- IEEE-style square root: NaN for negative arguments, `Rat.sqrt` (exact
on perfect squares) for the rounding hardware square root. -/
def F.sqrt : F → F
  | nan => nan
  | pinf => pinf
  | ninf => nan
  | val a => if a < 0 then nan else val (Rat.sqrt a)

/-- IEEE-style `≤` as a boolean: any comparison with NaN is false. -/
def F.ble : F → F → Bool
  | nan, _ => false
  | _, nan => false
  | ninf, _ => true
  | _, pinf => true
  | pinf, _ => false
  | _, ninf => false
  | val a, val b => decide (a ≤ b)

/-- `usize as f32` / integer-literal-to-float conversion. -/
def F.ofNat (n : Nat) : F := F.val n

/-- Rust `iter().sum::<f32>()`: left fold of `+` starting from `0.0`. -/
def F.sum (l : List F) : F := l.foldl F.add (F.val 0)

/-- Accumulator-based whitespace tokenizer; `cur` holds the characters of
the token in progress, in reverse. -/
def splitWSAux : List Char → List Char → List String
  | [], [] => []
  | [], cur => [String.mk cur.reverse]
  | c :: rest, cur =>
    if c.isWhitespace then
      if cur.isEmpty then splitWSAux rest []
      else String.mk cur.reverse :: splitWSAux rest []
    else splitWSAux rest (c :: cur)

/-- Model of Rust `str::split_whitespace`: the maximal nonempty runs of
non-whitespace characters, in order. -/
def splitWhitespace (s : String) : List String := splitWSAux s.toList []

/-- Numeric value of a digit string (most significant digit first). -/
def digitsVal (cs : List Char) : Nat := cs.foldl (fun a c => a * 10 + (c.toNat - 48)) 0

/-- All characters are ASCII digits. -/
def allDigits (cs : List Char) : Bool := cs.all (fun c => c.isDigit)

/-- Model of Rust `str::parse::<usize>()`: an optional leading `+` sign
followed by a nonempty digit string. -/
def parseUsize (s : String) : Option Nat :=
  let cs := s.toList
  let ds := match cs with
    | '+' :: rest => rest
    | _ => cs
  if ds.isEmpty then none
  else if allDigits ds then some (digitsVal ds) else none

/-- Split a character list at the occurrences of `'.'`. -/
def splitOnDot : List Char → List (List Char)
  | [] => [[]]
  | c :: rest =>
    let r := splitOnDot rest
    if c = '.' then [] :: r
    else (c :: r.headD []) :: r.tail

/-- Model of Rust `str::parse::<f32>()` on plain decimal literals: an
optional sign, then digits with at most one decimal point and at least one
digit. Exponent notation and the `inf` / `NaN` spellings accepted by Rust
are outside the model (no claim depends on them); accepted literals are
parsed exactly (no rounding). -/
def parseF (s : String) : Option F :=
  let cs := s.toList
  let (isNeg, ds) : Bool × List Char := match cs with
    | '-' :: rest => (true, rest)
    | '+' :: rest => (false, rest)
    | _ => (false, cs)
  let signed : ℚ → F := fun q => F.val (if isNeg then -q else q)
  match splitOnDot ds with
  | [ip] =>
    if ip.isEmpty then none
    else if allDigits ip then some (signed (digitsVal ip)) else none
  | [ip, fp] =>
    if ip.isEmpty && fp.isEmpty then none
    else if allDigits ip && allDigits fp then
      some (signed ((digitsVal ip : ℚ) + (digitsVal fp : ℚ) / (10 : ℚ) ^ fp.length))
    else none
  | _ => none

/-- Typed rendering of the `io::Error` values the core constructs, plus
`indexOutOfBounds`, which models the Rust panic in
`separate_id_symbol_tpm` (no `io::Error` is ever built there). -/
inductive LoadError where
  | notEnoughMetadataLines
  | invalidSizeLine
  | invalidRowCountFormat
  | invalidTissueCountFormat
  | invalidHeaderLength (expected found : Nat)
  | invalidTpmCount (rowNumber expected found : Nat)
  | invalidTpmValue (id token : String)
  | duplicateId (id : String)
  | indexOutOfBounds
deriving DecidableEq

/-- `GCTMetadata` (src/gct_metadata.rs). -/
structure GCTMetadata where
  version : String
  num_rows : Nat
  num_columns : Nat
  num_tissues : Nat
  column_names : List String
deriving DecidableEq

/-- `GCTMetadata::new`: plain field assembly, no validation. -/
def GCTMetadata.new (version : String) (num_rows num_columns num_tissues : Nat)
    (column_names : List String) : GCTMetadata :=
  ⟨version, num_rows, num_columns, num_tissues, column_names⟩

/-- `GCTMetadata::get_tissue_names`: `&column_names[2..]`. -/
def GCTMetadata.get_tissue_names (m : GCTMetadata) : List String :=
  m.column_names.drop 2

/-- `GCTMetadata::from_lines`: consume three header lines (fewer lines is
an error), parse the size line (at least two whitespace tokens, the first
two parsing as nonnegative integers), check the header column count, and
return the metadata together with the unconsumed lines. -/
def GCTMetadata.from_lines : List String → Except LoadError (GCTMetadata × List String)
  | version :: size_line :: header_line :: rest =>
    match splitWhitespace size_line with
    | s0 :: s1 :: _ =>
      match parseUsize s0 with
      | none => .error .invalidRowCountFormat
      | some num_rows =>
        match parseUsize s1 with
        | none => .error .invalidTissueCountFormat
        | some num_tissues =>
          let num_columns := num_tissues + 2
          let column_names := splitWhitespace header_line
          if column_names.length ≠ num_columns then
            .error (.invalidHeaderLength num_columns column_names.length)
          else
            .ok (⟨version, num_rows, num_columns, num_tissues, column_names⟩, rest)
    | _ => .error .invalidSizeLine
  | _ => .error .notEnoughMetadataLines

/-- `TissueAnalysis` (src/expression_analysis/dge.rs). -/
structure TissueAnalysis where
  tissue_name : String
  z_score : F
deriving DecidableEq

/-- `DGEResult` (src/expression_analysis/dge.rs). -/
structure DGEResult where
  id : String
  symbol : String
  up_regulated : List TissueAnalysis
  down_regulated : List TissueAnalysis
deriving DecidableEq

/-- `DGEResult::new`. -/
def DGEResult.new (id symbol : String) : DGEResult :=
  ⟨id, symbol, [], []⟩

/-- `DGEResult::add_up_regulated`: push onto the end of `up_regulated`. -/
def DGEResult.add_up_regulated (d : DGEResult) (tissue_name : String) (z_score : F) : DGEResult :=
  { d with up_regulated := d.up_regulated ++ [⟨tissue_name, z_score⟩] }

/-- `DGEResult::add_down_regulated`: push onto the end of `down_regulated`. -/
def DGEResult.add_down_regulated (d : DGEResult) (tissue_name : String) (z_score : F) : DGEResult :=
  { d with down_regulated := d.down_regulated ++ [⟨tissue_name, z_score⟩] }

/-- The `mean` binding of `DGEResult::perform_analysis`:
`tpms.iter().sum::<f32>() / tpms.len() as f32`. -/
def statsMean (tpms : List F) : F := F.div (F.sum tpms) (F.ofNat tpms.length)

/-- The `variance` binding of `DGEResult::perform_analysis`:
`tpms.iter().map(|x| (x - mean).powi(2)).sum::<f32>() / tpms.len() as f32`. -/
def statsVariance (tpms : List F) : F :=
  F.div
    (F.sum (tpms.map fun x => F.mul (F.sub x (statsMean tpms)) (F.sub x (statsMean tpms))))
    (F.ofNat tpms.length)

/-- The `sd` binding of `DGEResult::perform_analysis`: `variance.sqrt()`. -/
def statsSd (tpms : List F) : F := F.sqrt (statsVariance tpms)

/-- The per-tissue `zscore` of `DGEResult::perform_analysis`:
`(tpm_value - mean) / sd`. -/
def zscoreOf (tpms : List F) (tpm_value : F) : F :=
  F.div (F.sub tpm_value (statsMean tpms)) (statsSd tpms)

/-- The z-scores of a row, in tissue-column order. -/
def zscoreList (tpms : List F) : List F := tpms.map (zscoreOf tpms)

/-- `DGEResult::perform_analysis`: walk `tissue_names.iter().zip(tpms)`
appending to `up_regulated` when `zscore >= dge_threshold` and to
`down_regulated` when `zscore <= -dge_threshold`. -/
def DGEResult.perform_analysis (d : DGEResult) (tpms : List F) (metadata : GCTMetadata)
    (dge_threshold : F) : DGEResult :=
  (metadata.get_tissue_names.zip tpms).foldl
    (fun acc p =>
      let zscore := zscoreOf tpms p.2
      if F.ble dge_threshold zscore then acc.add_up_regulated p.1 zscore
      else if F.ble zscore (F.neg dge_threshold) then acc.add_down_regulated p.1 zscore
      else acc)
    d

/-- `DGEResult::from_analysis`. -/
def DGEResult.from_analysis (id symbol : String) (tpms : List F) (metadata : GCTMetadata)
    (dge_threshold : F) : DGEResult :=
  (DGEResult.new id symbol).perform_analysis tpms metadata dge_threshold

/-- `RowParser::separate_id_symbol_tpm`: whitespace-split the line; the
first token is the id, the second the symbol, the remaining tokens parse
as floats (first failing token reported with the gene id). Indexing
`elems[0]` / `elems[1]` on a line with fewer than two tokens is a Rust
panic, modelled as `LoadError.indexOutOfBounds`. -/
def parseTpms (id : String) : List String → Except LoadError (List F)
  | [] => .ok []
  | t :: ts =>
    match parseF t with
    | none => .error (.invalidTpmValue id t)
    | some v =>
      match parseTpms id ts with
      | .error e => .error e
      | .ok vs => .ok (v :: vs)

/-- See `parseTpms`; this is the body of `RowParser::separate_id_symbol_tpm`
(identical to `GCTResults::separate_id_symbol_tpm` in src/gct_results.rs). -/
def RowParser.separate_id_symbol_tpm (content : String) :
    Except LoadError (String × String × List F) :=
  match splitWhitespace content with
  | id :: symbol :: rest =>
    match parseTpms id rest with
    | .error e => .error e
    | .ok tpms => .ok (id, symbol, tpms)
  | _ => .error .indexOutOfBounds

/-- `RowParser::parse_row`: split the line, check the value count against
`metadata.num_tissues` (the error reports the 1-based physical line number
`index + 4`), then run the analysis. -/
def RowParser.parse_row (metadata : GCTMetadata) (line : String) (index : Nat)
    (dge_threshold : F) : Except LoadError DGEResult :=
  match RowParser.separate_id_symbol_tpm line with
  | .error e => .error e
  | .ok (id, symbol, tpms) =>
    if tpms.length ≠ metadata.num_tissues then
      .error (.invalidTpmCount (index + 4) metadata.num_tissues tpms.length)
    else
      .ok (DGEResult.from_analysis id symbol tpms metadata dge_threshold)

/-- `GtexSummary` (src/expression_analysis/gtex_summary.rs); the
`HashMap<String, DGEResult>` is modelled as the insertion-ordered
association list built by the ingestion loop. -/
structure GtexSummary where
  metadata : GCTMetadata
  results : List (String × DGEResult)
deriving DecidableEq

/-- `GtexSummary::new`. -/
def GtexSummary.new (metadata : GCTMetadata) (results : List (String × DGEResult)) :
    GtexSummary :=
  ⟨metadata, results⟩

/-- `GtexSummary::get_results`. -/
def GtexSummary.get_results (s : GtexSummary) : List (String × DGEResult) := s.results

/-- `GtexSummaryLoader`. -/
structure GtexSummaryLoader where
  n_max : Option Nat
  dge_threshold : Option F

/-- `GtexSummaryLoader::new`: the threshold is normalized with `abs` once,
at construction. -/
def GtexSummaryLoader.new (n_max : Option Nat) (dge_threshold : Option F) :
    GtexSummaryLoader :=
  ⟨n_max, dge_threshold.map F.abs⟩

/-- The data-row loop of `GtexSummaryLoader::load_summary`: stop when the
zero-based row index reaches the cap, parse the row, reject an id that is
already a key, otherwise insert and continue. -/
def processRows (metadata : GCTMetadata) (n_max : Option Nat) (dge_threshold : F) :
    Nat → List String → List (String × DGEResult) →
    Except LoadError (List (String × DGEResult))
  | _, [], acc => .ok acc
  | index, line :: rest, acc =>
    if n_max = some index then .ok acc
    else
      match RowParser.parse_row metadata line index dge_threshold with
      | .error e => .error e
      | .ok dge =>
        if (acc.map Prod.fst).contains dge.id then .error (.duplicateId dge.id)
        else processRows metadata n_max dge_threshold (index + 1) rest (acc ++ [(dge.id, dge)])

/-- `GtexSummaryLoader::load_summary`: parse the three metadata lines, then
run the row loop over the remaining lines with threshold
`self.dge_threshold.unwrap_or(2.0)`. -/
def GtexSummaryLoader.load_summary (self : GtexSummaryLoader) (lines : List String) :
    Except LoadError GtexSummary :=
  match GCTMetadata.from_lines lines with
  | .error e => .error e
  | .ok (metadata, rest) =>
    match processRows metadata self.n_max (self.dge_threshold.getD (F.val 2)) 0 rest [] with
    | .error e => .error e
    | .ok results => .ok (GtexSummary.new metadata results)

/-- Specification-side form of the up-regulated list (§4.4): the aligned
`(tissue_name, z_score)` pairs whose z-score is `≥ θ`, kept in
tissue-column order. -/
def specUpRegulated (metadata : GCTMetadata) (tpms : List F) (θ : F) : List TissueAnalysis :=
  (metadata.get_tissue_names.zip (zscoreList tpms)).filterMap
    (fun p => if F.ble θ p.2 then some ⟨p.1, p.2⟩ else none)

/-- Specification-side form of the down-regulated list (§4.4): the aligned
pairs whose z-score is `≤ −θ`, kept in tissue-column order. -/
def specDownRegulated (metadata : GCTMetadata) (tpms : List F) (θ : F) : List TissueAnalysis :=
  (metadata.get_tissue_names.zip (zscoreList tpms)).filterMap
    (fun p => if F.ble p.2 (F.neg θ) then some ⟨p.1, p.2⟩ else none)

/-- The data rows the ingestion loop looks at: everything, or the first
`n` when a row cap `n` is configured. -/
def cappedRows (n_max : Option Nat) (rows : List String) : List String :=
  match n_max with
  | none => rows
  | some n => rows.take n

/-- The data rows the ingestion loop still looks at when its zero-based
row index has reached `index` (generalization of `cappedRows` used for the
loop invariants). -/
def cappedFrom (n_max : Option Nat) (index : Nat) (rows : List String) : List String :=
  match n_max with
  | none => rows
  | some n => rows.take (n - index)

/-- A data line that the row parser accepts against `metadata`: it splits
into id, symbol and exactly `num_tissues` parseable values. -/
def RowOk (metadata : GCTMetadata) (line : String) : Prop :=
  ∃ pr : String × String × List F,
    RowParser.separate_id_symbol_tpm line = .ok pr ∧ pr.2.2.length = metadata.num_tissues

/-- The gene identifier of a data line: its first whitespace token. -/
def rowId (line : String) : String := (splitWhitespace line).headD ""

/-- The first identifier in the list that repeats an identifier already
seen (`seen` collects identifiers of earlier rows). -/
def firstDup (seen : List String) : List String → Option String
  | [] => none
  | x :: xs => if seen.contains x then some x else firstDup (x :: seen) xs

/-- Modelled from the spec: the compact binary persisted form (§4.6).  The
`bincode` encoder itself is an external crate, absent from src/; this
models its documented format — struct fields in declaration order,
sequences as a length followed by the elements — as a token stream. -/
inductive BinTok where
  | tnat (n : Nat)
  | tstr (s : String)
  | tnum (x : F)
deriving DecidableEq

/-- A sequence: its length, then the encodings of its elements. -/
def encodeSeq {α : Type} (enc : α → List BinTok) (xs : List α) : List BinTok :=
  BinTok.tnat xs.length :: (xs.map enc).flatten

def decodeNat : List BinTok → Option (Nat × List BinTok)
  | .tnat n :: rest => some (n, rest)
  | _ => none

def decodeStr : List BinTok → Option (String × List BinTok)
  | .tstr s :: rest => some (s, rest)
  | _ => none

def decodeNum : List BinTok → Option (F × List BinTok)
  | .tnum x :: rest => some (x, rest)
  | _ => none

/-- Decode exactly `n` elements. -/
def decodeCount {α : Type} (dec : List BinTok → Option (α × List BinTok)) :
    Nat → List BinTok → Option (List α × List BinTok)
  | 0, ts => some ([], ts)
  | n + 1, ts =>
    match dec ts with
    | none => none
    | some (x, ts1) =>
      match decodeCount dec n ts1 with
      | none => none
      | some (xs, ts2) => some (x :: xs, ts2)

def decodeSeq {α : Type} (dec : List BinTok → Option (α × List BinTok))
    (ts : List BinTok) : Option (List α × List BinTok) :=
  match decodeNat ts with
  | none => none
  | some (n, ts1) => decodeCount dec n ts1

def encodeTissue (t : TissueAnalysis) : List BinTok :=
  [.tstr t.tissue_name, .tnum t.z_score]

def decodeTissue (ts : List BinTok) : Option (TissueAnalysis × List BinTok) :=
  match decodeStr ts with
  | none => none
  | some (n, ts1) =>
    match decodeNum ts1 with
    | none => none
    | some (z, ts2) => some (⟨n, z⟩, ts2)

def encodeDGE (d : DGEResult) : List BinTok :=
  [.tstr d.id, .tstr d.symbol]
    ++ encodeSeq encodeTissue d.up_regulated
    ++ encodeSeq encodeTissue d.down_regulated

def decodeDGE (ts : List BinTok) : Option (DGEResult × List BinTok) :=
  match decodeStr ts with
  | none => none
  | some (i, ts1) =>
    match decodeStr ts1 with
    | none => none
    | some (s, ts2) =>
      match decodeSeq decodeTissue ts2 with
      | none => none
      | some (up, ts3) =>
        match decodeSeq decodeTissue ts3 with
        | none => none
        | some (down, ts4) => some (⟨i, s, up, down⟩, ts4)

def encodeEntry (e : String × DGEResult) : List BinTok :=
  .tstr e.1 :: encodeDGE e.2

def decodeEntry (ts : List BinTok) : Option ((String × DGEResult) × List BinTok) :=
  match decodeStr ts with
  | none => none
  | some (k, ts1) =>
    match decodeDGE ts1 with
    | none => none
    | some (d, ts2) => some ((k, d), ts2)

def encodeStrTok (s : String) : List BinTok := [.tstr s]

def encodeMetadata (m : GCTMetadata) : List BinTok :=
  [.tstr m.version, .tnat m.num_rows, .tnat m.num_columns, .tnat m.num_tissues]
    ++ encodeSeq encodeStrTok m.column_names

def decodeMetadata (ts : List BinTok) : Option (GCTMetadata × List BinTok) :=
  match decodeStr ts with
  | none => none
  | some (v, ts1) =>
    match decodeNat ts1 with
    | none => none
    | some (nr, ts2) =>
      match decodeNat ts2 with
      | none => none
      | some (nc, ts3) =>
        match decodeNat ts3 with
        | none => none
        | some (nt, ts4) =>
          match decodeSeq decodeStr ts4 with
          | none => none
          | some (cols, ts5) => some (⟨v, nr, nc, nt, cols⟩, ts5)

/-- Modelled from the spec: `save_bincode` — the complete
(schema + result mapping) structure as a compact token stream. -/
def encode_bincode (s : GtexSummary) : List BinTok :=
  encodeMetadata s.metadata ++ encodeSeq encodeEntry s.results

/-- Modelled from the spec: `load_bincode` — decode the stream; anything
left over or missing is a corrupt encoding. -/
def decode_bincode (ts : List BinTok) : Option GtexSummary :=
  match decodeMetadata ts with
  | none => none
  | some (m, ts1) =>
    match decodeSeq decodeEntry ts1 with
    | none => none
    | some (rs, ts2) =>
      match ts2 with
      | [] => some (GtexSummary.new m rs)
      | _ => none

/-- Modelled from the spec: the human-readable structured text form
(§4.6).  The `serde_json` crate is an external collaborator, absent from
src/; the nested key/value document it prints and re-parses is modelled as
this tree. -/
inductive Jval where
  | jstr (s : String)
  | jnum (x : F)
  | jnat (n : Nat)
  | jarr (items : List Jval)
  | jobj (fields : List (String × Jval))

def TissueAnalysis.to_json (t : TissueAnalysis) : Jval :=
  .jobj [("tissue_name", .jstr t.tissue_name), ("z_score", .jnum t.z_score)]

def TissueAnalysis.of_json : Jval → Option TissueAnalysis
  | .jobj [("tissue_name", .jstr n), ("z_score", .jnum z)] => some ⟨n, z⟩
  | _ => none

def DGEResult.to_json (d : DGEResult) : Jval :=
  .jobj [("id", .jstr d.id), ("symbol", .jstr d.symbol),
         ("up_regulated", .jarr (d.up_regulated.map TissueAnalysis.to_json)),
         ("down_regulated", .jarr (d.down_regulated.map TissueAnalysis.to_json))]

def DGEResult.of_json : Jval → Option DGEResult
  | .jobj [("id", .jstr i), ("symbol", .jstr s),
           ("up_regulated", .jarr us), ("down_regulated", .jarr ds)] =>
    match us.mapM TissueAnalysis.of_json with
    | none => none
    | some up =>
      match ds.mapM TissueAnalysis.of_json with
      | none => none
      | some down => some ⟨i, s, up, down⟩
  | _ => none

def GCTMetadata.to_json (m : GCTMetadata) : Jval :=
  .jobj [("version", .jstr m.version), ("num_rows", .jnat m.num_rows),
         ("num_columns", .jnat m.num_columns), ("num_tissues", .jnat m.num_tissues),
         ("column_names", .jarr (m.column_names.map Jval.jstr))]

def jvalToStr : Jval → Option String
  | .jstr s => some s
  | _ => none

def GCTMetadata.of_json : Jval → Option GCTMetadata
  | .jobj [("version", .jstr v), ("num_rows", .jnat nr),
           ("num_columns", .jnat nc), ("num_tissues", .jnat nt),
           ("column_names", .jarr cols)] =>
    match cols.mapM jvalToStr with
    | none => none
    | some cs => some ⟨v, nr, nc, nt, cs⟩
  | _ => none

def entryOfJson (e : String × Jval) : Option (String × DGEResult) :=
  match DGEResult.of_json e.2 with
  | none => none
  | some d => some (e.1, d)

/-- Modelled from the spec: `save_json` — the map is printed as an object
whose keys are the gene identifiers. -/
def GtexSummary.to_json (s : GtexSummary) : Jval :=
  .jobj [("metadata", s.metadata.to_json),
         ("results", .jobj (s.results.map fun e => (e.1, e.2.to_json)))]

/-- Modelled from the spec: `load_json`. -/
def GtexSummary.of_json : Jval → Option GtexSummary
  | .jobj [("metadata", m), ("results", .jobj rs)] =>
    match GCTMetadata.of_json m with
    | none => none
    | some md =>
      match rs.mapM entryOfJson with
      | none => none
      | some results => some (GtexSummary.new md results)
  | _ => none

theorem F.abs_abs (x : F) : F.abs (F.abs x) = F.abs x := by
  cases x <;> simp [F.abs, abs_abs]

theorem decodeStr_encode (s : String) (rest : List BinTok) :
    decodeStr (BinTok.tstr s :: rest) = some (s, rest) := rfl

theorem decodeCount_encode {α : Type} (enc : α → List BinTok)
    (dec : List BinTok → Option (α × List BinTok)) (xs : List α)
    (h : ∀ x ∈ xs, ∀ rest, dec (enc x ++ rest) = some (x, rest)) (rest : List BinTok) :
    decodeCount dec xs.length ((xs.map enc).flatten ++ rest) = some (xs, rest) := by
  induction xs with
  | nil => rfl
  | cons x xs ih =>
    simp only [List.map_cons, List.flatten_cons, List.length_cons, List.append_assoc,
      decodeCount, h x (by simp)]
    rw [ih (fun y hy => h y (by simp [hy]))]

theorem decodeSeq_encode {α : Type} (enc : α → List BinTok)
    (dec : List BinTok → Option (α × List BinTok)) (xs : List α)
    (h : ∀ x ∈ xs, ∀ rest, dec (enc x ++ rest) = some (x, rest)) (rest : List BinTok) :
    decodeSeq dec (encodeSeq enc xs ++ rest) = some (xs, rest) := by
  simp only [encodeSeq, decodeSeq, List.cons_append, decodeNat]
  exact decodeCount_encode enc dec xs h rest

theorem decodeTissue_encode (t : TissueAnalysis) (rest : List BinTok) :
    decodeTissue (encodeTissue t ++ rest) = some (t, rest) := rfl

theorem decodeSeqTissue_encode (xs : List TissueAnalysis) (rest : List BinTok) :
    decodeSeq decodeTissue (encodeSeq encodeTissue xs ++ rest) = some (xs, rest) :=
  decodeSeq_encode _ _ _ (fun x _ => decodeTissue_encode x) rest

theorem decodeSeqStr_encode (xs : List String) (rest : List BinTok) :
    decodeSeq decodeStr (encodeSeq encodeStrTok xs ++ rest) = some (xs, rest) :=
  decodeSeq_encode _ _ _ (fun _ _ _ => rfl) rest

theorem decodeDGE_encode (d : DGEResult) (rest : List BinTok) :
    decodeDGE (encodeDGE d ++ rest) = some (d, rest) := by
  simp only [encodeDGE, decodeDGE, List.cons_append, List.nil_append, List.append_assoc,
    decodeStr, decodeSeqTissue_encode]

theorem decodeEntry_encode (e : String × DGEResult) (rest : List BinTok) :
    decodeEntry (encodeEntry e ++ rest) = some (e, rest) := by
  simp only [encodeEntry, decodeEntry, List.cons_append, decodeStr, decodeDGE_encode]

theorem decodeSeqEntry_encode (xs : List (String × DGEResult)) (rest : List BinTok) :
    decodeSeq decodeEntry (encodeSeq encodeEntry xs ++ rest) = some (xs, rest) :=
  decodeSeq_encode _ _ _ (fun x _ => decodeEntry_encode x) rest

theorem decodeMetadata_encode (m : GCTMetadata) (rest : List BinTok) :
    decodeMetadata (encodeMetadata m ++ rest) = some (m, rest) := by
  simp only [encodeMetadata, decodeMetadata, List.cons_append, List.nil_append,
    List.append_assoc, decodeStr, decodeNat, decodeSeqStr_encode]

theorem mapM_of_map {α β : Type} (f : β → Option α) (g : α → β) (xs : List α)
    (h : ∀ x ∈ xs, f (g x) = some x) : (xs.map g).mapM f = some xs := by
  induction xs with
  | nil => rfl
  | cons x xs ih =>
    simp only [List.map_cons, List.mapM_cons, h x (by simp), Option.bind_some,
      Option.pure_def]
    rw [ih (fun y hy => h y (by simp [hy]))]
    rfl

theorem tissue_json_round (t : TissueAnalysis) :
    TissueAnalysis.of_json (TissueAnalysis.to_json t) = some t := rfl

theorem dge_json_round (d : DGEResult) :
    DGEResult.of_json (DGEResult.to_json d) = some d := by
  simp only [DGEResult.to_json, DGEResult.of_json]
  rw [mapM_of_map _ _ _ (fun x _ => tissue_json_round x),
    mapM_of_map _ _ _ (fun x _ => tissue_json_round x)]

theorem metadata_json_round (m : GCTMetadata) :
    GCTMetadata.of_json (GCTMetadata.to_json m) = some m := by
  simp only [GCTMetadata.to_json, GCTMetadata.of_json]
  rw [mapM_of_map jvalToStr Jval.jstr m.column_names (fun x _ => rfl)]

theorem summary_json_round (s : GtexSummary) :
    GtexSummary.of_json (GtexSummary.to_json s) = some s := by
  simp only [GtexSummary.to_json, GtexSummary.of_json]
  rw [metadata_json_round]
  rw [mapM_of_map entryOfJson _ _ (fun e _ => by simp [entryOfJson, dge_json_round e.2])]
  rfl

/-- C4: decoding what was just encoded reproduces the store field-for-field,
for both the compact binary encoding and the structured text encoding.
The two codecs live in external crates (`bincode`, `serde_json`), so they
are modelled from the spec; the store structure itself is the one built by
`GtexSummary::new`. -/
theorem claim_C4_persistence_round_trip :
    ∀ store : GtexSummary,
      decode_bincode (encode_bincode store) = some store ∧
      GtexSummary.of_json (GtexSummary.to_json store) = some store := by
  intro store
  constructor
  · have h := decodeSeqEntry_encode store.results []
    rw [List.append_nil] at h
    simp only [encode_bincode, decode_bincode, decodeMetadata_encode, h]
    rfl
  · exact summary_json_round store

/-- C5: fewer than three header lines (in particular completely empty
input) fail the whole load with the premature-end-of-input format error;
empty input never yields an empty store. -/
theorem claim_C5_short_header_fails :
    ∀ (n_max : Option Nat) (θ : Option F) (lines : List String),
      lines.length < 3 →
      GCTMetadata.from_lines lines = .error .notEnoughMetadataLines ∧
      (GtexSummaryLoader.new n_max θ).load_summary lines =
        .error .notEnoughMetadataLines := by
  intro n_max θ lines h
  have hm : GCTMetadata.from_lines lines = .error .notEnoughMetadataLines := by
    match lines with
    | [] => rfl
    | [_] => rfl
    | [_, _] => rfl
    | _ :: _ :: _ :: _ => simp at h; omega
  refine ⟨hm, ?_⟩
  simp only [GtexSummaryLoader.load_summary, hm]

/-- Witness for C5 at the empty input. -/
theorem claim_C5_short_header_fails_witness :
    GCTMetadata.from_lines [] = .error .notEnoughMetadataLines ∧
    (GtexSummaryLoader.new none none).load_summary [] =
      .error .notEnoughMetadataLines :=
  claim_C5_short_header_fails none none [] (by decide)

/-- C7: the loader normalizes the threshold to its absolute value once at
construction, so loading with threshold `θ` and with `|θ|` give exactly the
same result, for every input. -/
theorem claim_C7_threshold_normalization :
    ∀ (n_max : Option Nat) (θ : F) (lines : List String),
      (GtexSummaryLoader.new n_max (some θ)).load_summary lines =
      (GtexSummaryLoader.new n_max (some (F.abs θ))).load_summary lines := by
  intro n_max θ lines
  simp only [GtexSummaryLoader.new, Option.map, F.abs_abs]

/-- C9 counterexample: the claim says the invariant
`column_names.length == tissue_count + 2` holds through whichever public
constructor the schema was built, but `GCTMetadata::new` assembles the
fields without any validation; the repository's own unit test constructs
exactly this violating schema (48 tissues, a single column name). -/
theorem claim_C9_counterexample :
    ¬ ((GCTMetadata.new "v1.2" 100 50 48 ["Sample1"]).column_names.length =
       (GCTMetadata.new "v1.2" 100 50 48 ["Sample1"]).num_tissues + 2) := by
  decide

/-- C9 (amended): every schema produced by the line-parsing constructor
`GCTMetadata::from_lines` satisfies `column_names.length = num_tissues + 2`
(and `num_columns = num_tissues + 2`); `GCTMetadata::new` performs no such
validation.  No operation mutates a schema after construction (all
embedded operations are pure). -/
theorem claim_C9_schema_invariant_from_lines :
    ∀ (lines rest : List String) (metadata : GCTMetadata),
      GCTMetadata.from_lines lines = .ok (metadata, rest) →
      metadata.column_names.length = metadata.num_tissues + 2 ∧
      metadata.num_columns = metadata.num_tissues + 2 := by
  intro lines rest metadata h
  match lines with
  | [] => simp [GCTMetadata.from_lines] at h
  | [_] => simp [GCTMetadata.from_lines] at h
  | [_, _] => simp [GCTMetadata.from_lines] at h
  | version :: size_line :: header_line :: rest' =>
    simp only [GCTMetadata.from_lines] at h
    split at h
    · split at h
      · simp at h
      · split at h
        · simp at h
        · split at h
          · simp at h
          · rename_i hlen
            injection h with h1
            injection h1 with hm hr
            subst hm
            push_neg at hlen
            exact ⟨hlen, rfl⟩
    · simp at h

/-- Witness for C9 (amended) at a concrete three-line header. -/
theorem claim_C9_schema_invariant_from_lines_witness :
    (⟨"v1.0", 3, 5, 3, ["ID", "SYMBOL", "T1", "T2", "T3"]⟩ :
        GCTMetadata).column_names.length =
      (⟨"v1.0", 3, 5, 3, ["ID", "SYMBOL", "T1", "T2", "T3"]⟩ :
        GCTMetadata).num_tissues + 2 :=
  (claim_C9_schema_invariant_from_lines ["v1.0", "3 3", "ID SYMBOL T1 T2 T3"] []
    ⟨"v1.0", 3, 5, 3, ["ID", "SYMBOL", "T1", "T2", "T3"]⟩ (by rfl)).1

theorem parseTpms_ne_oob (id : String) (ts : List String) :
    parseTpms id ts ≠ .error .indexOutOfBounds := by
  induction ts with
  | nil => simp [parseTpms]
  | cons t ts ih =>
    simp only [parseTpms]
    cases parseF t with
    | none => simp
    | some v =>
      cases h2 : parseTpms id ts with
      | error e =>
        simp only [ne_eq, Except.error.injEq]
        intro he
        exact ih (by rw [h2, he])
      | ok vs => simp

/-- C10: on a line with fewer than two whitespace tokens (in particular an
empty or blank line) the row splitter hits the out-of-bounds indexing of
`elems[0]` / `elems[1]` — a Rust panic, not a typed error — and it avoids
that panic exactly when the line has at least two tokens. -/
theorem claim_C10_splitter_oob :
    ∀ line : String,
      ((splitWhitespace line).length < 2 →
        RowParser.separate_id_symbol_tpm line = .error .indexOutOfBounds) ∧
      (2 ≤ (splitWhitespace line).length →
        RowParser.separate_id_symbol_tpm line ≠ .error .indexOutOfBounds) := by
  intro line
  unfold RowParser.separate_id_symbol_tpm
  match hs : splitWhitespace line with
  | [] => exact ⟨fun _ => rfl, fun h => by simp at h⟩
  | [x] => exact ⟨fun _ => rfl, fun h => by simp at h⟩
  | x :: y :: rest =>
    refine ⟨fun h => by simp at h; omega, fun _ => ?_⟩
    cases hp : parseTpms x rest with
    | error e =>
      simp only [hp, ne_eq, Except.error.injEq]
      intro he
      exact parseTpms_ne_oob x rest (by rw [hp, he])
    | ok vs => simp [hp]

/-- Witness for C10: the empty line panics; a two-token line does not. -/
theorem claim_C10_splitter_oob_witness :
    RowParser.separate_id_symbol_tpm "" = .error .indexOutOfBounds ∧
    RowParser.separate_id_symbol_tpm "Gene1 Symbol1" ≠ .error .indexOutOfBounds :=
  ⟨(claim_C10_splitter_oob "").1 (by decide),
   (claim_C10_splitter_oob "Gene1 Symbol1").2 (by decide)⟩

theorem ble_exclusive (q : ℚ) (hq : 0 < q) (z : F) :
    ¬ (F.ble (F.val q) z = true ∧ F.ble z (F.neg (F.val q)) = true) := by
  cases z with
  | nan => simp [F.ble]
  | pinf => simp [F.ble, F.neg]
  | ninf => simp [F.ble]
  | val a =>
    simp only [F.ble, F.neg, decide_eq_true_eq]
    rintro ⟨h1, h2⟩
    linarith

theorem analysis_loop (tpms : List F) (θ : F)
    (hx : ∀ z, ¬ (F.ble θ z = true ∧ F.ble z (F.neg θ) = true)) :
    ∀ (pairs : List (String × F)) (acc : DGEResult),
      (pairs.foldl (fun acc p =>
        let zscore := zscoreOf tpms p.2
        if F.ble θ zscore then acc.add_up_regulated p.1 zscore
        else if F.ble zscore (F.neg θ) then acc.add_down_regulated p.1 zscore
        else acc) acc) =
      ⟨acc.id, acc.symbol,
        acc.up_regulated ++ pairs.filterMap (fun p =>
          if F.ble θ (zscoreOf tpms p.2) then some ⟨p.1, zscoreOf tpms p.2⟩ else none),
        acc.down_regulated ++ pairs.filterMap (fun p =>
          if F.ble (zscoreOf tpms p.2) (F.neg θ) then some ⟨p.1, zscoreOf tpms p.2⟩
          else none)⟩ := by
  intro pairs
  induction pairs with
  | nil => intro acc; simp
  | cons p ps ih =>
    intro acc
    simp only [List.foldl_cons, List.filterMap_cons]
    by_cases hup : F.ble θ (zscoreOf tpms p.2) = true
    · have hdown : F.ble (zscoreOf tpms p.2) (F.neg θ) = false := by
        by_contra hc
        exact hx (zscoreOf tpms p.2) ⟨hup, by revert hc; cases F.ble (zscoreOf tpms p.2) (F.neg θ) <;> simp⟩
      rw [ih]
      simp [hup, hdown, DGEResult.add_up_regulated]
    · have hup' : F.ble θ (zscoreOf tpms p.2) = false := by
        revert hup; cases F.ble θ (zscoreOf tpms p.2) <;> simp
      by_cases hdown : F.ble (zscoreOf tpms p.2) (F.neg θ) = true
      · rw [ih]
        simp [hup', hdown, DGEResult.add_down_regulated]
      · have hdown' : F.ble (zscoreOf tpms p.2) (F.neg θ) = false := by
          revert hdown; cases F.ble (zscoreOf tpms p.2) (F.neg θ) <;> simp
        rw [ih]
        simp [hup', hdown']

theorem specUp_as_pairs (metadata : GCTMetadata) (tpms : List F) (θ : F) :
    specUpRegulated metadata tpms θ =
      (metadata.get_tissue_names.zip tpms).filterMap (fun p =>
        if F.ble θ (zscoreOf tpms p.2) then some ⟨p.1, zscoreOf tpms p.2⟩ else none) := by
  simp only [specUpRegulated, zscoreList, List.zip_map_right, List.filterMap_map]
  rfl

theorem specDown_as_pairs (metadata : GCTMetadata) (tpms : List F) (θ : F) :
    specDownRegulated metadata tpms θ =
      (metadata.get_tissue_names.zip tpms).filterMap (fun p =>
        if F.ble (zscoreOf tpms p.2) (F.neg θ) then some ⟨p.1, zscoreOf tpms p.2⟩
        else none) := by
  simp only [specDownRegulated, zscoreList, List.zip_map_right, List.filterMap_map]
  rfl

/-- C1: for every gene row and every positive threshold `θ`, the classifier
produces as up-regulated exactly the aligned `(tissue, z)` pairs with
`z ≥ θ` and as down-regulated exactly those with `z ≤ −θ` (both inclusive
comparisons), each kept in tissue-column order — so every other tissue
lands in neither list — and a caller that supplies no threshold gets
exactly the behaviour of threshold `2.0`. -/
theorem claim_C1_classifier_rule :
    ∀ (id symbol : String) (tpms : List F) (metadata : GCTMetadata) (q : ℚ),
      0 < q →
      (DGEResult.from_analysis id symbol tpms metadata (F.val q)).up_regulated =
        specUpRegulated metadata tpms (F.val q) ∧
      (DGEResult.from_analysis id symbol tpms metadata (F.val q)).down_regulated =
        specDownRegulated metadata tpms (F.val q) ∧
      (∀ (n_max : Option Nat) (lines : List String),
        (GtexSummaryLoader.new n_max none).load_summary lines =
        (GtexSummaryLoader.new n_max (some (F.val 2))).load_summary lines) := by
  intro id symbol tpms metadata q hq
  have h := analysis_loop tpms (F.val q) (ble_exclusive q hq)
    (metadata.get_tissue_names.zip tpms) (DGEResult.new id symbol)
  refine ⟨?_, ?_, ?_⟩
  · rw [DGEResult.from_analysis, DGEResult.perform_analysis, h, specUp_as_pairs]
    simp [DGEResult.new]
  · rw [DGEResult.from_analysis, DGEResult.perform_analysis, h, specDown_as_pairs]
    simp [DGEResult.new]
  · intro n_max lines
    have habs : F.abs (F.val 2) = F.val 2 := by
      simp [F.abs, abs_of_pos]
    simp only [GtexSummaryLoader.new, Option.map, GtexSummaryLoader.load_summary, habs,
      Option.getD_none, Option.getD_some]

/-- Witness for C1 at a concrete row and threshold 1. -/
theorem claim_C1_classifier_rule_witness :
    (DGEResult.from_analysis "G" "S" [F.val 0, F.val 2]
        (GCTMetadata.new "v" 1 4 2 ["ID", "SYM", "T1", "T2"]) (F.val 1)).up_regulated =
      specUpRegulated (GCTMetadata.new "v" 1 4 2 ["ID", "SYM", "T1", "T2"])
        [F.val 0, F.val 2] (F.val 1) :=
  (claim_C1_classifier_rule "G" "S" [F.val 0, F.val 2]
    (GCTMetadata.new "v" 1 4 2 ["ID", "SYM", "T1", "T2"]) 1 (by norm_num)).1

theorem foldl_add_val (qs : List ℚ) :
    ∀ a : ℚ, (qs.map F.val).foldl F.add (F.val a) = F.val (a + qs.sum) := by
  induction qs with
  | nil => intro a; simp
  | cons q qs ih =>
    intro a
    simp only [List.map_cons, List.foldl_cons, F.add, List.sum_cons]
    rw [ih (a + q)]
    ring_nf

theorem fsum_val (qs : List ℚ) : F.sum (qs.map F.val) = F.val qs.sum := by
  rw [F.sum, foldl_add_val qs 0, zero_add]

theorem statsMean_val (qs : List ℚ) (hne : qs ≠ []) :
    statsMean (qs.map F.val) = F.val (qs.sum / (qs.length : ℚ)) := by
  have hlen : (qs.length : ℚ) ≠ 0 := by
    simpa using List.length_pos.mpr hne |>.ne'
  simp only [statsMean, fsum_val, List.length_map, F.ofNat, F.div, if_neg hlen]

theorem statsVariance_val (qs : List ℚ) (hne : qs ≠ []) :
    statsVariance (qs.map F.val) =
      F.val ((qs.map (fun x => (x - qs.sum / (qs.length : ℚ)) ^ 2)).sum /
        (qs.length : ℚ)) := by
  have hlen : (qs.length : ℚ) ≠ 0 := by
    simpa using List.length_pos.mpr hne |>.ne'
  have hmap : (qs.map F.val).map
      (fun x => F.mul (F.sub x (statsMean (qs.map F.val)))
        (F.sub x (statsMean (qs.map F.val)))) =
      (qs.map (fun x => (x - qs.sum / (qs.length : ℚ)) ^ 2)).map F.val := by
    rw [statsMean_val qs hne]
    simp only [List.map_map]
    refine List.map_congr_left (fun x _ => ?_)
    simp only [Function.comp_apply, F.sub, F.mul, sq]
  simp only [statsVariance, hmap, fsum_val, List.length_map, F.ofNat, F.div, if_neg hlen]

theorem statsSd_val (qs : List ℚ) (hne : qs ≠ []) (s : ℚ) (hs : 0 ≤ s)
    (hsq : s * s = (qs.map (fun x => (x - qs.sum / (qs.length : ℚ)) ^ 2)).sum /
      (qs.length : ℚ)) :
    statsSd (qs.map F.val) = F.val s := by
  rw [statsSd, statsVariance_val qs hne, ← hsq]
  have : ¬ (s * s < 0) := not_lt.mpr (mul_self_nonneg s)
  simp only [F.sqrt, if_neg this, Rat.sqrt_eq, abs_of_nonneg hs]

/-- C2: on a non-empty row of finite values the statistics engine computes
the arithmetic mean, the population variance (divisor = count, not
count − 1), the standard deviation as the square root of that variance
(stated where the variance has an exact square root, since the model's
`Rat.sqrt` rounds exactly like the hardware square root only rounds), and
the z-scores `(value − mean) / sd` in original order. -/
theorem claim_C2_statistics :
    ∀ (qs : List ℚ), qs ≠ [] →
      statsMean (qs.map F.val) = F.val (qs.sum / (qs.length : ℚ)) ∧
      statsVariance (qs.map F.val) =
        F.val ((qs.map (fun x => (x - qs.sum / (qs.length : ℚ)) ^ 2)).sum /
          (qs.length : ℚ)) ∧
      (∀ s : ℚ, 0 ≤ s →
        s * s = (qs.map (fun x => (x - qs.sum / (qs.length : ℚ)) ^ 2)).sum /
          (qs.length : ℚ) →
        statsSd (qs.map F.val) = F.val s) ∧
      (∀ s : ℚ, 0 < s →
        s * s = (qs.map (fun x => (x - qs.sum / (qs.length : ℚ)) ^ 2)).sum /
          (qs.length : ℚ) →
        zscoreList (qs.map F.val) =
          qs.map (fun x => F.val ((x - qs.sum / (qs.length : ℚ)) / s))) := by
  intro qs hne
  refine ⟨statsMean_val qs hne, statsVariance_val qs hne, statsSd_val qs hne, ?_⟩
  intro s hs hsq
  rw [zscoreList, List.map_map]
  refine List.map_congr_left (fun x _ => ?_)
  simp only [Function.comp_apply, zscoreOf, statsMean_val qs hne,
    statsSd_val qs hne s hs.le hsq, F.sub, F.div, if_neg hs.ne']

/-- Witness for C2 on the row `[0, 2]` (mean 1, variance 1, sd 1). -/
theorem claim_C2_statistics_witness :
    statsMean ([(0 : ℚ), 2].map F.val) = F.val 1 ∧
    statsSd ([(0 : ℚ), 2].map F.val) = F.val 1 ∧
    zscoreList ([(0 : ℚ), 2].map F.val) = [F.val (-1), F.val 1] := by
  have h := claim_C2_statistics [(0 : ℚ), 2] (by simp)
  have hsum : ([(0 : ℚ), 2].sum / (([(0 : ℚ), 2].length : ℕ) : ℚ)) = 1 := by
    norm_num
  have hv : ((1 : ℚ) * 1 =
      ([(0 : ℚ), 2].map (fun x => (x - [(0 : ℚ), 2].sum / (([(0 : ℚ), 2].length : ℕ) : ℚ)) ^ 2)).sum /
        (([(0 : ℚ), 2].length : ℕ) : ℚ)) := by
    norm_num
  refine ⟨?_, ?_, ?_⟩
  · rw [h.1, hsum]
  · exact h.2.2.1 1 (by norm_num) hv
  · rw [h.2.2.2 1 (by norm_num) hv]
    norm_num

theorem ble_nan_right (x : F) : F.ble x F.nan = false := by cases x <;> rfl

theorem ble_nan_left (x : F) : F.ble F.nan x = false := by cases x <;> rfl

theorem loop_nan (tpms : List F) (θ : F) :
    ∀ (pairs : List (String × F)), (∀ p ∈ pairs, zscoreOf tpms p.2 = F.nan) →
    ∀ acc : DGEResult,
      (pairs.foldl (fun acc p =>
        let zscore := zscoreOf tpms p.2
        if F.ble θ zscore then acc.add_up_regulated p.1 zscore
        else if F.ble zscore (F.neg θ) then acc.add_down_regulated p.1 zscore
        else acc) acc) = acc := by
  intro pairs
  induction pairs with
  | nil => intro _ acc; rfl
  | cons p ps ih =>
    intro h acc
    have hz : zscoreOf tpms p.2 = F.nan := h p (by simp)
    simp only [List.foldl_cons, hz, ble_nan_right, ble_nan_left, Bool.false_eq_true,
      if_false]
    exact ih (fun q hq => h q (by simp [hq])) acc

theorem replicate_stats (n : Nat) (c : ℚ) (hn : 0 < n) :
    statsMean (List.replicate n (F.val c)) = F.val c ∧
    statsSd (List.replicate n (F.val c)) = F.val 0 := by
  have hrep : List.replicate n (F.val c) = (List.replicate n c).map F.val := by
    simp
  have hne : List.replicate n c ≠ ([] : List ℚ) := by
    simp [List.replicate_eq_nil_iff]
    omega
  have hlen : ((List.replicate n c).length : ℚ) ≠ 0 := by
    simp
    omega
  have hsum : (List.replicate n c).sum = (n : ℚ) * c := by
    simp [List.sum_replicate, nsmul_eq_mul]
  have hmean : (List.replicate n c).sum / ((List.replicate n c).length : ℚ) = c := by
    rw [hsum]
    simp only [List.length_replicate]
    field_simp
  have hvar : ((List.replicate n c).map
      (fun x => (x - (List.replicate n c).sum / (((List.replicate n c).length : ℕ) : ℚ)) ^ 2)).sum /
      (((List.replicate n c).length : ℕ) : ℚ) = 0 := by
    rw [List.map_congr_left (fun x hx => by
      rw [List.eq_of_mem_replicate hx, hmean, sub_self])]
    simp
  constructor
  · rw [hrep, statsMean_val _ hne, hmean]
  · rw [hrep, statsSd_val _ hne 0 le_rfl (by rw [mul_zero, hvar])]

/-- C8: on a constant row (standard deviation exactly zero) the engine and
classifier do not fail — every operation is total in the model — the
z-scores are all the non-finite `NaN` (`0 / 0`), and classification puts
the row's tissues in neither the up- nor the down-regulated list, for
every threshold. -/
theorem claim_C8_zero_sd_not_classified :
    ∀ (id symbol : String) (metadata : GCTMetadata) (θ : F) (n : Nat) (c : ℚ),
      0 < n →
      statsSd (List.replicate n (F.val c)) = F.val 0 ∧
      zscoreList (List.replicate n (F.val c)) = List.replicate n F.nan ∧
      (DGEResult.from_analysis id symbol (List.replicate n (F.val c)) metadata
        θ).up_regulated = [] ∧
      (DGEResult.from_analysis id symbol (List.replicate n (F.val c)) metadata
        θ).down_regulated = [] := by
  intro id symbol metadata θ n c hn
  obtain ⟨hmean, hsd⟩ := replicate_stats n c hn
  have hz : ∀ x ∈ List.replicate n (F.val c),
      zscoreOf (List.replicate n (F.val c)) x = F.nan := by
    intro x hx
    rw [List.eq_of_mem_replicate hx]
    rw [zscoreOf, hmean, hsd]
    simp [F.sub, F.div]
  have hloop := loop_nan (List.replicate n (F.val c)) θ
    (metadata.get_tissue_names.zip (List.replicate n (F.val c)))
    (fun p hp => hz p.2 (List.of_mem_zip hp).2)
    (DGEResult.new id symbol)
  refine ⟨hsd, ?_, ?_, ?_⟩
  · rw [zscoreList, List.map_congr_left hz]
    simp
  · rw [DGEResult.from_analysis, DGEResult.perform_analysis, hloop]; rfl
  · rw [DGEResult.from_analysis, DGEResult.perform_analysis, hloop]; rfl

/-- Witness for C8 on the constant row `[1, 1]`. -/
theorem claim_C8_zero_sd_not_classified_witness :
    statsSd (List.replicate 2 (F.val 1)) = F.val 0 ∧
    zscoreList (List.replicate 2 (F.val 1)) = List.replicate 2 F.nan ∧
    (DGEResult.from_analysis "G" "S" (List.replicate 2 (F.val 1))
      (GCTMetadata.new "v" 1 4 2 ["ID", "SYM", "T1", "T2"]) (F.val 2)).up_regulated = [] ∧
    (DGEResult.from_analysis "G" "S" (List.replicate 2 (F.val 1))
      (GCTMetadata.new "v" 1 4 2 ["ID", "SYM", "T1", "T2"]) (F.val 2)).down_regulated = [] :=
  claim_C8_zero_sd_not_classified "G" "S"
    (GCTMetadata.new "v" 1 4 2 ["ID", "SYM", "T1", "T2"]) (F.val 2) 2 1 (by decide)

theorem zscoreOf_replicate_nan (n : Nat) (c : ℚ) (hn : 0 < n) :
    ∀ x ∈ List.replicate n (F.val c),
      zscoreOf (List.replicate n (F.val c)) x = F.nan := by
  intro x hx
  obtain ⟨hmean, hsd⟩ := replicate_stats n c hn
  rw [List.eq_of_mem_replicate hx, zscoreOf, hmean, hsd]
  simp [F.sub, F.div]

theorem from_analysis_replicate (id symbol : String) (metadata : GCTMetadata) (θ : F)
    (n : Nat) (c : ℚ) (hn : 0 < n) :
    DGEResult.from_analysis id symbol (List.replicate n (F.val c)) metadata θ =
      DGEResult.new id symbol := by
  rw [DGEResult.from_analysis, DGEResult.perform_analysis]
  exact loop_nan _ θ _
    (fun p hp => zscoreOf_replicate_nan n c hn p.2 (List.of_mem_zip hp).2) _

theorem processRows_take (metadata : GCTMetadata) (θ : F) (N : Nat) :
    ∀ (rows : List String) (index : Nat) (acc : List (String × DGEResult)),
      index ≤ N →
      processRows metadata (some N) θ index rows acc =
        processRows metadata (some N) θ index (rows.take (N - index)) acc := by
  intro rows
  induction rows with
  | nil => intro index acc _; simp [List.take_nil]
  | cons line rest ih =>
    intro index acc hle
    by_cases heq : N = index
    · subst heq
      simp [processRows, Nat.sub_self]
    · have hk : N - index = (N - (index + 1)) + 1 := by omega
      rw [hk, List.take_succ_cons]
      simp only [processRows, Option.some.injEq, heq, if_false]
      cases hpar : RowParser.parse_row metadata line index θ with
      | error e => rfl
      | ok dge =>
        dsimp only
        by_cases hc : ((acc.map Prod.fst).contains dge.id) = true
        · rw [if_pos hc, if_pos hc]
        · rw [if_neg hc, if_neg hc]
          exact ih (index + 1) (acc ++ [(dge.id, dge)]) (by omega)

theorem processRows_ok_length (metadata : GCTMetadata) (θ : F) (N : Nat) :
    ∀ (rows : List String) (index : Nat) (acc res : List (String × DGEResult)),
      index ≤ N →
      processRows metadata (some N) θ index rows acc = .ok res →
      res.length = acc.length + min (N - index) rows.length := by
  intro rows
  induction rows with
  | nil =>
    intro index acc res _ h
    simp only [processRows, Except.ok.injEq] at h
    subst h
    simp
  | cons line rest ih =>
    intro index acc res hle h
    by_cases heq : N = index
    · subst heq
      simp only [processRows, eq_self_iff_true, if_true, Except.ok.injEq] at h
      subst h
      simp [Nat.sub_self]
    · simp only [processRows, Option.some.injEq, heq, if_false] at h
      cases hpar : RowParser.parse_row metadata line index θ with
      | error e =>
        simp only [hpar] at h
        exact absurd h (by simp)
      | ok dge =>
        simp only [hpar] at h
        by_cases hc : ((acc.map Prod.fst).contains dge.id) = true
        · rw [if_pos hc] at h; exact absurd h (by simp)
        · rw [if_neg hc] at h
          have := ih (index + 1) (acc ++ [(dge.id, dge)]) res (by omega) h
          simp only [List.length_append, List.length_cons, List.length_nil] at this
          simp only [List.length_cons]
          omega

/-- C6: with a configured row cap `N` the ingestion loop processes exactly
the first `min(N, number of data lines)` rows and stops: the result it
returns is the same as if only the first `N` data lines existed (so lines
at or beyond the cap are never parsed and cannot fail the load), and a
successful load holds exactly `min(N, number of data lines)` entries. -/
theorem claim_C6_row_cap :
    ∀ (metadata : GCTMetadata) (θ : F) (N : Nat) (rows : List String),
      processRows metadata (some N) θ 0 rows [] =
        processRows metadata (some N) θ 0 (rows.take N) [] ∧
      (∀ res, processRows metadata (some N) θ 0 rows [] = .ok res →
        res.length = min N rows.length) := by
  intro metadata θ N rows
  constructor
  · have h := processRows_take metadata θ N rows 0 [] (Nat.zero_le N)
    simpa using h
  · intro res h
    have := processRows_ok_length metadata θ N rows 0 [] res (Nat.zero_le N) h
    simpa using this

/-- Witness for C6: cap 1 over three data rows (the third malformed)
processes only the first row; the store holds `min 1 3 = 1` entry. -/
theorem claim_C6_row_cap_witness :
    processRows (GCTMetadata.new "v" 3 5 3 ["ID", "SYMBOL", "T1", "T2", "T3"]) (some 1)
        (F.val 2) 0 ["Gene1 S 1 1 1", "Gene2 S 2 2 2", "x"] [] =
      processRows (GCTMetadata.new "v" 3 5 3 ["ID", "SYMBOL", "T1", "T2", "T3"]) (some 1)
        (F.val 2) 0 (["Gene1 S 1 1 1", "Gene2 S 2 2 2", "x"].take 1) [] ∧
    ([("Gene1", DGEResult.new "Gene1" "S")] : List (String × DGEResult)).length =
      min 1 (["Gene1 S 1 1 1", "Gene2 S 2 2 2", "x"].length) := by
  have hmain := claim_C6_row_cap (GCTMetadata.new "v" 3 5 3 ["ID", "SYMBOL", "T1", "T2", "T3"])
    (F.val 2) 1 ["Gene1 S 1 1 1", "Gene2 S 2 2 2", "x"]
  have hrow : RowParser.parse_row (GCTMetadata.new "v" 3 5 3 ["ID", "SYMBOL", "T1", "T2", "T3"])
      "Gene1 S 1 1 1" 0 (F.val 2) = .ok (DGEResult.new "Gene1" "S") := by
    have hsep : RowParser.separate_id_symbol_tpm "Gene1 S 1 1 1" =
        .ok ("Gene1", "S", List.replicate 3 (F.val 1)) := rfl
    rw [RowParser.parse_row, hsep]
    simp only [List.length_replicate]
    rw [if_neg (by decide)]
    rw [from_analysis_replicate "Gene1" "S" _ _ 3 1 (by decide)]
  have heval : processRows (GCTMetadata.new "v" 3 5 3 ["ID", "SYMBOL", "T1", "T2", "T3"])
      (some 1) (F.val 2) 0 ["Gene1 S 1 1 1", "Gene2 S 2 2 2", "x"] [] =
      .ok [("Gene1", DGEResult.new "Gene1" "S")] := by
    simp [processRows, hrow, DGEResult.new]
  exact ⟨hmain.1, hmain.2 [("Gene1", DGEResult.new "Gene1" "S")] heval⟩

theorem step_fields (θ : F) (tpms : List F) (a : DGEResult) (p : String × F) :
    ((fun (acc : DGEResult) (p : String × F) =>
      let zscore := zscoreOf tpms p.2
      if F.ble θ zscore then acc.add_up_regulated p.1 zscore
      else if F.ble zscore (F.neg θ) then acc.add_down_regulated p.1 zscore
      else acc) a p).id = a.id ∧
    ((fun (acc : DGEResult) (p : String × F) =>
      let zscore := zscoreOf tpms p.2
      if F.ble θ zscore then acc.add_up_regulated p.1 zscore
      else if F.ble zscore (F.neg θ) then acc.add_down_regulated p.1 zscore
      else acc) a p).symbol = a.symbol := by
  dsimp only
  split
  · simp [DGEResult.add_up_regulated]
  · split
    · simp [DGEResult.add_down_regulated]
    · exact ⟨rfl, rfl⟩

theorem analysis_loop_fields (tpms : List F) (θ : F) :
    ∀ (pairs : List (String × F)) (acc : DGEResult),
      (pairs.foldl (fun acc p =>
        let zscore := zscoreOf tpms p.2
        if F.ble θ zscore then acc.add_up_regulated p.1 zscore
        else if F.ble zscore (F.neg θ) then acc.add_down_regulated p.1 zscore
        else acc) acc).id = acc.id ∧
      (pairs.foldl (fun acc p =>
        let zscore := zscoreOf tpms p.2
        if F.ble θ zscore then acc.add_up_regulated p.1 zscore
        else if F.ble zscore (F.neg θ) then acc.add_down_regulated p.1 zscore
        else acc) acc).symbol = acc.symbol := by
  intro pairs
  induction pairs with
  | nil => intro acc; exact ⟨rfl, rfl⟩
  | cons p ps ih =>
    intro acc
    simp only [List.foldl_cons]
    constructor
    · exact ((ih _).1).trans (step_fields θ tpms acc p).1
    · exact ((ih _).2).trans (step_fields θ tpms acc p).2

theorem from_analysis_fields (id symbol : String) (tpms : List F) (metadata : GCTMetadata)
    (θ : F) :
    (DGEResult.from_analysis id symbol tpms metadata θ).id = id ∧
    (DGEResult.from_analysis id symbol tpms metadata θ).symbol = symbol := by
  rw [DGEResult.from_analysis, DGEResult.perform_analysis]
  exact analysis_loop_fields tpms θ _ (DGEResult.new id symbol)

theorem separate_fst (line : String) (pr : String × String × List F)
    (h : RowParser.separate_id_symbol_tpm line = .ok pr) : pr.1 = rowId line := by
  rw [RowParser.separate_id_symbol_tpm] at h
  rw [rowId]
  cases hs : splitWhitespace line with
  | nil => rw [hs] at h; exact absurd h (by simp)
  | cons a as =>
    cases as with
    | nil => rw [hs] at h; exact absurd h (by simp)
    | cons b bs =>
      rw [hs] at h
      dsimp only at h
      cases hp : parseTpms a bs with
      | error e => rw [hp] at h; exact absurd h (by simp)
      | ok vs =>
        rw [hp] at h
        dsimp only at h
        injection h with h1
        rw [← h1]
        rfl

theorem parse_row_rowOk (metadata : GCTMetadata) (line : String) (h : RowOk metadata line)
    (index : Nat) (θ : F) :
    ∃ dge, RowParser.parse_row metadata line index θ = .ok dge ∧ dge.id = rowId line := by
  obtain ⟨pr, hsep, hlen⟩ := h
  obtain ⟨id, symbol, tpms⟩ := pr
  refine ⟨DGEResult.from_analysis id symbol tpms metadata θ, ?_, ?_⟩
  · rw [RowParser.parse_row, hsep]
    dsimp only
    rw [if_neg (by simp only [hlen]; exact fun hne => hne rfl)]
  · rw [(from_analysis_fields id symbol tpms metadata θ).1]
    exact separate_fst line (id, symbol, tpms) hsep

theorem firstDup_congr : ∀ (xs seen seen' : List String),
    (∀ a, seen.contains a = seen'.contains a) →
    firstDup seen xs = firstDup seen' xs := by
  intro xs
  induction xs with
  | nil => intro _ _ _; rfl
  | cons x xs ih =>
    intro seen seen' h
    simp only [firstDup, h x]
    by_cases hc : seen'.contains x = true
    · rw [if_pos hc, if_pos hc]
    · rw [if_neg hc, if_neg hc]
      exact ih (x :: seen) (x :: seen') (fun a => by
        simp only [List.contains_cons, h a])

theorem processRows_duplicate (metadata : GCTMetadata) (θ : F) (n_max : Option Nat) :
    ∀ (rows : List String) (index : Nat) (acc : List (String × DGEResult)) (d : String),
      (∀ line ∈ cappedFrom n_max index rows, RowOk metadata line) →
      firstDup (acc.map Prod.fst) ((cappedFrom n_max index rows).map rowId) = some d →
      processRows metadata n_max θ index rows acc = .error (.duplicateId d) := by
  intro rows
  induction rows with
  | nil =>
    intro index acc d _ hdup
    have hnil : cappedFrom n_max index [] = [] := by
      cases n_max <;> simp [cappedFrom]
    rw [hnil] at hdup
    simp [firstDup] at hdup
  | cons line rest ih =>
    intro index acc d hwf hdup
    by_cases hstop : n_max = some index
    · rw [hstop] at hdup
      simp [cappedFrom, Nat.sub_self, firstDup] at hdup
    · have hsplit : cappedFrom n_max index (line :: rest) =
          line :: cappedFrom n_max (index + 1) rest ∨
          cappedFrom n_max index (line :: rest) = [] := by
        cases n_max with
        | none => exact Or.inl rfl
        | some n =>
          rcases Nat.lt_or_ge index n with hlt | hge
          · left
            have hk : n - index = (n - (index + 1)) + 1 := by omega
            simp [cappedFrom, hk]
          · right
            have hk : n - index = 0 := by omega
            simp [cappedFrom, hk]
      rcases hsplit with hsp | hsp
      · rw [hsp] at hwf hdup
        have hok : RowOk metadata line := hwf line (by simp)
        obtain ⟨dge, hpar, hid⟩ := parse_row_rowOk metadata line hok index θ
        simp only [processRows, if_neg hstop, hpar]
        simp only [List.map_cons, firstDup] at hdup
        by_cases hc : ((acc.map Prod.fst).contains (rowId line)) = true
        · rw [if_pos hc] at hdup
          injection hdup with hd
          rw [hid, if_pos hc, hd]
        · have hc' : ((acc.map Prod.fst).contains (rowId line)) = false := by
            revert hc; cases (acc.map Prod.fst).contains (rowId line) <;> simp
          simp only [hc', Bool.false_eq_true, if_false] at hdup
          have hcd : ((acc.map Prod.fst).contains dge.id) = false := by
            rw [hid]; exact hc'
          simp only [hcd, Bool.false_eq_true, if_false]
          refine ih (index + 1) (acc ++ [(dge.id, dge)]) d
            (fun l hl => hwf l (by simp [hl])) ?_
          rw [List.map_append]
          rw [firstDup_congr _ (acc.map Prod.fst ++ [(dge.id, dge)].map Prod.fst)
            (rowId line :: acc.map Prod.fst)
            (fun a => by
              rw [hid]
              by_cases hmem : a = rowId line
              · subst hmem; simp
              · have hb : (a == rowId line) = false := beq_eq_false_iff_ne.mpr hmem
                simp [List.contains_cons, List.mem_append, List.mem_singleton, hmem, hb])]
          exact hdup
      · rw [hsp] at hdup
        simp [firstDup] at hdup

/-- C3 counterexample: these data lines contain two rows with the same
gene identifier (`Gene1`), yet ingestion aborts with the value-parse
error for the token `x` on the second row — not with the
duplicate-identifier error — because the splitter error on that row fires
before the duplicate check is ever reached. -/
theorem claim_C3_counterexample :
    (GtexSummaryLoader.new none none).load_summary
        ["v1.0", "3 3", "ID SYMBOL T1 T2 T3", "Gene1 S 1 1 1", "Gene1 S 1 2 x"] =
      .error (.invalidTpmValue "Gene1" "x") ∧
    (GtexSummaryLoader.new none none).load_summary
        ["v1.0", "3 3", "ID SYMBOL T1 T2 T3", "Gene1 S 1 1 1", "Gene1 S 1 2 x"] ≠
      .error (.duplicateId "Gene1") := by
  have hml : GCTMetadata.from_lines
      ["v1.0", "3 3", "ID SYMBOL T1 T2 T3", "Gene1 S 1 1 1", "Gene1 S 1 2 x"] =
      .ok (GCTMetadata.new "v1.0" 3 5 3 ["ID", "SYMBOL", "T1", "T2", "T3"],
        ["Gene1 S 1 1 1", "Gene1 S 1 2 x"]) := rfl
  have hrow0 : RowParser.parse_row (GCTMetadata.new "v1.0" 3 5 3 ["ID", "SYMBOL", "T1", "T2", "T3"])
      "Gene1 S 1 1 1" 0 (F.val 2) = .ok (DGEResult.new "Gene1" "S") := by
    have hsep : RowParser.separate_id_symbol_tpm "Gene1 S 1 1 1" =
        .ok ("Gene1", "S", List.replicate 3 (F.val 1)) := rfl
    rw [RowParser.parse_row, hsep]
    simp only [List.length_replicate]
    rw [if_neg (by decide)]
    rw [from_analysis_replicate "Gene1" "S" _ _ 3 1 (by decide)]
  have hrow1 : RowParser.parse_row (GCTMetadata.new "v1.0" 3 5 3 ["ID", "SYMBOL", "T1", "T2", "T3"])
      "Gene1 S 1 2 x" 1 (F.val 2) = .error (.invalidTpmValue "Gene1" "x") := rfl
  have heval : (GtexSummaryLoader.new none none).load_summary
      ["v1.0", "3 3", "ID SYMBOL T1 T2 T3", "Gene1 S 1 1 1", "Gene1 S 1 2 x"] =
      .error (.invalidTpmValue "Gene1" "x") := by
    rw [GtexSummaryLoader.load_summary, hml]
    simp [processRows, hrow0, hrow1, DGEResult.new, GtexSummaryLoader.new]
  exact ⟨heval, by rw [heval]; simp⟩

/-- C3 (amended): when every data line within the processed range splits
and parses cleanly against the schema, an input whose processed data
lines contain two rows with the same gene identifier aborts the whole
ingestion with the duplicate-identifier error naming the first identifier
that repeats — regardless of which occurrence is second and of its
position — never overwriting the earlier entry, never skipping the
duplicate row, and never processing rows after it (the loop returns the
error the moment the repeated identifier is seen).  The counterexample
shows the unamended claim fails when an earlier-or-same row is malformed:
that row's own error aborts ingestion first. -/
theorem claim_C3_duplicate_identifier :
    ∀ (metadata : GCTMetadata) (n_max : Option Nat) (θ : F) (rows : List String)
      (d : String),
      (∀ line ∈ cappedRows n_max rows, RowOk metadata line) →
      firstDup [] ((cappedRows n_max rows).map rowId) = some d →
      processRows metadata n_max θ 0 rows [] = .error (.duplicateId d) := by
  intro metadata n_max θ rows d hwf hdup
  have hcap : cappedFrom n_max 0 rows = cappedRows n_max rows := by
    cases n_max <;> simp [cappedFrom, cappedRows]
  exact processRows_duplicate metadata θ n_max rows 0 [] d
    (by rw [hcap]; exact hwf) (by rw [hcap]; exact hdup)

/-- Witness for C3 (amended): two well-formed rows sharing `Gene1`. -/
theorem claim_C3_duplicate_identifier_witness :
    processRows (GCTMetadata.new "v" 3 5 3 ["ID", "SYMBOL", "T1", "T2", "T3"]) none (F.val 2) 0
      ["Gene1 S 1 1 1", "Gene1 S 2 2 2"] [] = .error (.duplicateId "Gene1") := by
  refine claim_C3_duplicate_identifier
    (GCTMetadata.new "v" 3 5 3 ["ID", "SYMBOL", "T1", "T2", "T3"]) none (F.val 2)
    ["Gene1 S 1 1 1", "Gene1 S 2 2 2"] "Gene1" ?_ ?_
  · intro line hl
    simp only [cappedRows, List.mem_cons, List.not_mem_nil, or_false] at hl
    rcases hl with h1 | h1 <;> subst h1
    · exact ⟨("Gene1", "S", List.replicate 3 (F.val 1)), rfl, rfl⟩
    · exact ⟨("Gene1", "S", List.replicate 3 (F.val 2)), rfl, rfl⟩
  · decide
